import Mathlib

/-!
Shallow embedding of the rusty_coin core (src/types.rs, src/transaction.rs,
src/block.rs, src/blockchain.rs) and proofs about its specification claims.

Bytes are modelled as `Nat` values (< 256 for every byte the code produces),
byte strings as `List Nat`.  Rust's `[u8; 32]` ordering (lexicographic) on
hash values coincides with big-endian numeric ordering, so comparisons of
hashes are modelled through `beNat`.  Fallible / panicking Rust code is
modelled with `Option` (`none` = panic).  Loops without a termination bound
(`while`) are modelled with explicit fuel so that every definition stays
executable and kernel-reducible.
-/

set_option maxRecDepth 100000
set_option maxHeartbeats 3200000

/-- Big-endian byte decomposition of `n` into `k` bytes, as `u{8k}::to_be_bytes`. -/
def beBytes (k n : Nat) : List Nat :=
  (List.range k).map (fun i => n / 2 ^ (8 * (k - 1 - i)) % 256)

/-- Big-endian numeric value of a byte string; on 32-byte strings of valid
bytes this order coincides with Rust's lexicographic `Ord` on `[u8; 32]`. -/
def beNat (l : List Nat) : Nat :=
  l.foldl (fun a b => a * 256 + b) 0

/-- The 32-byte zero hash value. -/
def zero32 : List Nat := List.replicate 32 0

/-! ## SHA-256 (FIPS 180-4), executable over byte lists -/

/-- Right rotation of a 32-bit word. -/
def rotr32 (n x : Nat) : Nat :=
  (x >>> n ||| x <<< (32 - n)) % 2 ^ 32

/-- SHA-256 round constants. -/
def shaK : List Nat :=
  [1116352408, 1899447441, 3049323471, 3921009573, 961987163, 1508970993,
   2453635748, 2870763221, 3624381080, 310598401, 607225278, 1426881987,
   1925078388, 2162078206, 2614888103, 3248222580, 3835390401, 4022224774,
   264347078, 604807628, 770255983, 1249150122, 1555081692, 1996064986,
   2554220882, 2821834349, 2952996808, 3210313671, 3336571891, 3584528711,
   113926993, 338241895, 666307205, 773529912, 1294757372, 1396182291,
   1695183700, 1986661051, 2177026350, 2456956037, 2730485921, 2820302411,
   3259730800, 3345764771, 3516065817, 3600352804, 4094571909, 275423344,
   430227734, 506948616, 659060556, 883997877, 958139571, 1322822218,
   1537002063, 1747873779, 1955562222, 2024104815, 2227730452, 2361852424,
   2428436474, 2756734187, 3204031479, 3329325298]

/-- SHA-256 initial hash state. -/
def shaH0 : List Nat :=
  [1779033703, 3144134277, 1013904242, 2773480762,
   1359893119, 2600822924, 528734635, 1541459225]

/-- Group a byte stream into big-endian 32-bit words. -/
def toWords : List Nat → List Nat
  | b0 :: b1 :: b2 :: b3 :: rest => (((b0 * 256 + b1) * 256 + b2) * 256 + b3) :: toWords rest
  | _ => []

/-- Extend the 16 message words to the 64-entry schedule. -/
def extendWords (w : List Nat) : List Nat :=
  (List.range 48).foldl
    (fun acc _ =>
      let n := acc.length
      let s0 :=
        rotr32 7 (acc.getD (n - 15) 0) ^^^ rotr32 18 (acc.getD (n - 15) 0) ^^^
          (acc.getD (n - 15) 0 >>> 3)
      let s1 :=
        rotr32 17 (acc.getD (n - 2) 0) ^^^ rotr32 19 (acc.getD (n - 2) 0) ^^^
          (acc.getD (n - 2) 0 >>> 10)
      acc ++ [(acc.getD (n - 16) 0 + s0 + acc.getD (n - 7) 0 + s1) % 2 ^ 32])
    w

/-- One SHA-256 compression round. -/
def shaRound (st : List Nat) (kw : Nat × Nat) : List Nat :=
  match st with
  | [a, b, c, d, e, f, g, h] =>
    let S1 := rotr32 6 e ^^^ rotr32 11 e ^^^ rotr32 25 e
    let ch := e &&& f ^^^ ((2 ^ 32 - 1 - e) &&& g)
    let t1 := (h + S1 + ch + kw.1 + kw.2) % 2 ^ 32
    let S0 := rotr32 2 a ^^^ rotr32 13 a ^^^ rotr32 22 a
    let mj := a &&& b ^^^ (a &&& c) ^^^ (b &&& c)
    let t2 := (S0 + mj) % 2 ^ 32
    [(t1 + t2) % 2 ^ 32, a, b, c, (d + t1) % 2 ^ 32, e, f, g]
  | _ => st

/-- Compress a 64-byte block into the running state. -/
def shaBlock (st : List Nat) (block : List Nat) : List Nat :=
  let w := extendWords (toWords block)
  let out := (shaK.zip w).foldl shaRound st
  (st.zip out).map (fun p => (p.1 + p.2) % 2 ^ 32)

/-- Split a byte stream into 64-byte chunks (fuel-driven for reducibility). -/
def chunks64 : Nat → List Nat → List (List Nat)
  | 0, _ => []
  | _ + 1, [] => []
  | fuel + 1, l => l.take 64 :: chunks64 fuel (l.drop 64)

/-- SHA-256 padding: `0x80`, zeros, and the 64-bit big-endian bit length. -/
def shaPad (msg : List Nat) : List Nat :=
  msg ++ [0x80] ++ List.replicate ((119 - msg.length % 64) % 64) 0 ++
    beBytes 8 (8 * msg.length)

/-- SHA-256 of a byte string, as a 32-byte string. -/
def sha256Bytes (msg : List Nat) : List Nat :=
  let padded := shaPad msg
  ((chunks64 padded.length padded).foldl shaBlock shaH0).flatMap (beBytes 4)

/-! ## Decimal amounts (`rust_decimal::Decimal`)

A decimal is a scaled integer: numeric value `mantissa / 10 ^ scale`.
`serde_json::to_vec` of a `Decimal` (the default `serde` feature of
`rust_decimal`) produces the JSON string of its display form, e.g.
`dec!(0.0)` (mantissa 0, scale 1) becomes the five bytes `"0.0"`. -/

structure Dec where
  mantissa : Int
  scale : Nat
deriving DecidableEq

/-- Numeric order on decimals: `a < b` iff the underlying rationals compare so. -/
def Dec.lt (a b : Dec) : Prop :=
  a.mantissa * (10 : Int) ^ b.scale < b.mantissa * (10 : Int) ^ a.scale

instance : DecidableRel Dec.lt := fun a b =>
  inferInstanceAs (Decidable (a.mantissa * (10 : Int) ^ b.scale < b.mantissa * (10 : Int) ^ a.scale))

/-- Numeric equality on decimals (`PartialEq` of `rust_decimal` is numeric). -/
def Dec.eqNum (a b : Dec) : Prop :=
  a.mantissa * (10 : Int) ^ b.scale = b.mantissa * (10 : Int) ^ a.scale

instance : DecidableRel Dec.eqNum := fun a b =>
  inferInstanceAs (Decidable (a.mantissa * (10 : Int) ^ b.scale = b.mantissa * (10 : Int) ^ a.scale))

/-- Decimal addition: rescale to the larger scale and add mantissas. -/
def Dec.add (a b : Dec) : Dec :=
  if a.scale ≤ b.scale then
    ⟨a.mantissa * (10 : Int) ^ (b.scale - a.scale) + b.mantissa, b.scale⟩
  else
    ⟨a.mantissa + b.mantissa * (10 : Int) ^ (a.scale - b.scale), a.scale⟩

/-- Decimal subtraction, in the same rescaling style. -/
def Dec.sub (a b : Dec) : Dec :=
  Dec.add a ⟨-b.mantissa, b.scale⟩

/-- The literal `dec!(0.0)`: mantissa 0, scale 1. -/
def dec00 : Dec := ⟨0, 1⟩

/-- ASCII digits of `n`, most significant first (fuel-driven). -/
def digitsAux : Nat → Nat → List Nat
  | 0, _ => []
  | fuel + 1, n => if n = 0 then [] else digitsAux fuel (n / 10) ++ [n % 10 + 48]

/-- Display form of a decimal as ASCII bytes (`Decimal::to_string`):
sign, integer digits, and `scale` fractional digits. -/
def Dec.displayBytes (d : Dec) : List Nat :=
  let m := d.mantissa.natAbs
  let ds := digitsAux 64 m
  let ds := List.replicate (d.scale + 1 - ds.length) 48 ++ ds
  let body := ds.take (ds.length - d.scale) ++
    (if d.scale = 0 then [] else 46 :: ds.drop (ds.length - d.scale))
  (if d.mantissa < 0 then [45] else []) ++ body

/-- Bytes of `serde_json::to_vec(&decimal)`: the display form, JSON-quoted. -/
def Dec.jsonBytes (d : Dec) : List Nat :=
  34 :: d.displayBytes ++ [34]

/-! ## Transactions (src/transaction.rs) -/

/-- An input of a transaction (struct `Input`). -/
structure Input where
  prev_transaction_hash : List Nat
  prev_block_index : Nat
  prev_output_index : Nat
  length_of_unlock_script : Nat
  unlock_script : List Nat
deriving DecidableEq

/-- Constructor `Input::new` (records the script length). -/
def Input.mkNew (transaction_hash : List Nat) (previous_block_index output_index : Nat)
    (unlock_script : List Nat) : Input :=
  ⟨transaction_hash, previous_block_index, output_index, unlock_script.length, unlock_script⟩

/-- An output of a transaction (struct `Output`). -/
structure Output where
  amount : Dec
  length_of_locking_script : Nat
  locking_script : List Nat
deriving DecidableEq

/-- Constructor `Output::new` (records the script length). -/
def Output.mkNew (amount : Dec) (locking_script : List Nat) : Output :=
  ⟨amount, locking_script.length, locking_script⟩

/-- A transaction (struct `Transaction`). -/
structure Transaction where
  inputs : List Input
  outputs : List Output
  transaction_id : List Nat
  transaction_fee : Dec
  additional_data : Option (List Nat)
deriving DecidableEq

/-- The canonical byte stream hashed by `Transaction::sha256`: for each input
its previous-transaction hash, 8-byte big-endian block / output indices and
script length, then the script; for each output the JSON bytes of the amount,
the 8-byte length and the locking script; then the `transaction_id` field as
currently stored, the JSON bytes of the fee, and the additional data if any. -/
def txEncode (t : Transaction) : List Nat :=
  (t.inputs.flatMap fun i =>
    i.prev_transaction_hash ++ beBytes 8 i.prev_block_index ++
      beBytes 8 i.prev_output_index ++ beBytes 8 i.length_of_unlock_script ++
      i.unlock_script) ++
  (t.outputs.flatMap fun o =>
    o.amount.jsonBytes ++ beBytes 8 o.length_of_locking_script ++ o.locking_script) ++
  t.transaction_id ++ t.transaction_fee.jsonBytes ++
  (match t.additional_data with | some d => d | none => [])

/-- Method `Transaction::sha256`. -/
def Transaction.sha256 (t : Transaction) : List Nat :=
  sha256Bytes (txEncode t)

/-- Method `Transaction::update_digest`: store the current digest in
`transaction_id`. -/
def Transaction.update_digest (t : Transaction) : Transaction :=
  { t with transaction_id := t.sha256 }

/-- Method `Transaction::get_output_by_index`. -/
def Transaction.get_output_by_index (t : Transaction) (index : Nat) : Option Output :=
  t.outputs.get? index

/-- Method `Transaction::is_coinbase_transaction`: no inputs. -/
def Transaction.is_coinbase_transaction (t : Transaction) : Prop :=
  t.inputs = []

instance (t : Transaction) : Decidable t.is_coinbase_transaction :=
  inferInstanceAs (Decidable (_ = _))

/-! ## secp256k1 primitives, abstracted

The embedding is parametric in the ECDSA primitives from the `secp256k1`
crate; `verify_scripts` only forwards bytes to them.  `sig_from_compact_ok`
tells whether `Signature::from_compact` succeeds (the source `unwrap`s its
result, so failure is a panic), `pubkey_parse_ok` whether
`PublicKey::from_slice` succeeds, and `sig_verify sig msg pk` whether the
signature check passes. -/

structure Secp where
  sig_from_compact_ok : List Nat → Bool
  pubkey_parse_ok : List Nat → Bool
  sig_verify : List Nat → List Nat → List Nat → Bool

/-- Method `Transaction::verify_scripts (prev_transaction, unlocking_script,
locking_script)`.  `none` models a panic: `split_at(64)` panics when the
`unlocking_script` argument is shorter than 64 bytes, and
`Signature::from_compact(..).unwrap()` panics when the 64 signature bytes do
not parse. -/
def Transaction.verify_scripts (C : Secp) (prev_transaction : Transaction)
    (unlocking_script locking_script : List Nat) : Option Bool :=
  if unlocking_script.length < 64 then none
  else
    let signature := unlocking_script.take 64
    let public_key := unlocking_script.drop 64
    if sha256Bytes public_key ≠ locking_script then some false
    else if ¬ C.sig_from_compact_ok signature then none
    else if ¬ C.pubkey_parse_ok public_key then some false
    else if ¬ C.sig_verify signature prev_transaction.sha256 public_key then some false
    else some true

/-! ## Blocks (src/block.rs) -/

/-- A block (struct `Block`).  `version` is the UTF-8 byte string of the
version field; `nonce` is the signed 64-bit nonce. -/
structure Block where
  version : List Nat
  index : Nat
  timestamp : Nat
  prev_hash : List Nat
  hash : List Nat
  merkle_root : List Nat
  difficulty : Nat
  nonce : Int
  data : List Transaction
deriving DecidableEq

/-- Method `Block::target_threshold`: expand the compact `difficulty` into a
32-byte target.  The mantissa bytes `b1 b2 b3` are written at the big-endian
indices `32 - exp - 3`, `32 - exp - 2`, `32 - exp - 1` with `exp = b0 - 3`;
an index outside `0..32` (a negative value wraps to a huge `usize` in the
source) is simply never matched, clipping that byte to zero. -/
def Block.target_threshold (b : Block) : List Nat :=
  let b0 : Nat := b.difficulty / 2 ^ 24 % 256
  let b1 : Nat := b.difficulty / 2 ^ 16 % 256
  let b2 : Nat := b.difficulty / 2 ^ 8 % 256
  let b3 : Nat := b.difficulty % 256
  let exp : Int := (b0 : Int) - 3
  (List.range 32).map fun (i : Nat) =>
    if (i : Int) = 32 - exp - 2 - 1 then b1
    else if (i : Int) = 32 - exp - 1 - 1 then b2
    else if (i : Int) = 32 - exp - 0 - 1 then b3
    else 0

/-- The header byte stream hashed by `Block::sha256`: version bytes, 8-byte
big-endian index and timestamp, previous hash, merkle root, 4-byte difficulty
and the 8-byte two's-complement nonce.  `hash` and `data` are not hashed. -/
def headerEncode (b : Block) : List Nat :=
  b.version ++ beBytes 8 b.index ++ beBytes 8 b.timestamp ++ b.prev_hash ++
    b.merkle_root ++ beBytes 4 b.difficulty ++ beBytes 8 (b.nonce.emod (2 ^ 64)).toNat

/-- Method `Block::sha256` (a single round over the header). -/
def Block.sha256 (b : Block) : List Nat :=
  sha256Bytes (headerEncode b)

/-- The doubled SHA-256 of the header, the proof-of-work digest. -/
def Block.sha256d (b : Block) : List Nat :=
  sha256Bytes b.sha256

/-- One level of the Merkle reduction as the source writes it:
`hashes.chunks(2)` (fuel-driven split into runs of two). -/
def chunks2 : Nat → List (List Nat) → List (List (List Nat))
  | 0, _ => []
  | _ + 1, [] => []
  | fuel + 1, l => l.take 2 :: chunks2 fuel (l.drop 2)

/-- The `map` over the chunks in `Block::calc_merkle_root`: a pair is hashed
as `SHA256(left ‖ right)`, a lone element passes through; any other shape is
the source's `unreachable!()` arm (modelled by `[]`, provably never hit). -/
def merkleChunkMap (chunk : List (List Nat)) : List Nat :=
  match chunk with
  | [h] => h
  | [h1, h2] => sha256Bytes (h1 ++ h2)
  | _ => []

/-- One pass of the `while hashes.len() > 1` loop body. -/
def merkleLevel (hashes : List (List Nat)) : List (List Nat) :=
  (chunks2 hashes.length hashes).map merkleChunkMap

/-- The `while hashes.len() > 1` loop, fuel-driven (each pass at least halves
a list of length > 1, so `hashes.length` rounds of fuel always suffice). -/
def merkleLoop : Nat → List (List Nat) → List (List Nat)
  | 0, hashes => hashes
  | fuel + 1, hashes =>
    if hashes.length > 1 then merkleLoop fuel (merkleLevel hashes) else hashes

/-- Method `Block::calc_merkle_root`: the zero hash for an empty body,
otherwise the loop result (`hashes[0]`). -/
def Block.calc_merkle_root (b : Block) : List Nat :=
  if b.data = [] then zero32
  else
    let hashes := b.data.map Transaction.sha256
    (merkleLoop hashes.length hashes).headD zero32

/-- The nonce search of `Block::update_hash_and_nonce`: try the current nonce,
then successors, until the doubled SHA-256 is at most the target (`none` when
the fuel runs out, i.e. the Rust loop has not yet terminated). -/
def mineAux (b : Block) (target : List Nat) : Nat → Int → Option (Int × List Nat)
  | 0, _ => none
  | fuel + 1, nonce =>
    if beNat (Block.sha256d { b with nonce := nonce }) ≤ beNat target then
      some (nonce, Block.sha256d { b with nonce := nonce })
    else mineAux b target fuel (nonce + 1)

/-- Method `Block::update_hash_and_nonce`: commit the first succeeding nonce
and its hash into the block. -/
def Block.update_hash_and_nonce (b : Block) (fuel : Nat) : Option Block :=
  (mineAux b b.target_threshold fuel b.nonce).map fun p =>
    { b with nonce := p.1, hash := p.2 }

/-- Method `Block::get_tx_by_id`: first transaction whose stored id matches. -/
def Block.get_tx_by_id (b : Block) (tx_id : List Nat) : Option Transaction :=
  b.data.find? fun tx => tx.transaction_id = tx_id

/-! ## The chain (src/blockchain.rs) -/

/-- The chain plus its transaction pool (struct `Blockchain`). -/
structure Blockchain where
  blockchain : List Block
  tx_pool : List Transaction
deriving DecidableEq

/-- Method `Blockchain::get_block`. -/
def Blockchain.get_block (self : Blockchain) (index : Nat) : Option Block :=
  self.blockchain.get? index

/-- Method `Blockchain::get_last_block`. -/
def Blockchain.get_last_block (self : Blockchain) : Option Block :=
  self.blockchain.getLast?

/-- The bifurcation search of `resolve_conflicts`: length of the longest
common prefix of the two chains measured by equal stored `hash`. -/
def forkPoint : List Block → List Block → Nat
  | a :: as, b :: bs => if a.hash = b.hash then forkPoint as bs + 1 else 0
  | _, _ => 0

/-- The aggregate difficulty of `resolve_conflicts`: the `u32` sum of the raw
compact `difficulty` fields (wrapping modulo `2^32`, as released Rust does). -/
def chainWork (chain : List Block) : Nat :=
  (chain.map Block.difficulty).sum % 2 ^ 32

/-- The non-coinbase transactions of every block from `fork_point` on —
`extend(block.data.iter().skip(1))` over `chain.iter().skip(fork_point)`. -/
def suffixTxs (chain : List Block) (fork_point : Nat) : List Transaction :=
  (chain.drop fork_point).flatMap fun b => b.data.drop 1

/-- Method `Blockchain::resolve_conflicts`.  `none` models the index panic on
an empty own chain or an empty candidate slice (`blockchain[0]` /
`candidate_chain[0]`).  In every branch the transactions replayed into the
pool are those of the *candidate* suffix: when the candidate is adopted the
source first assigns `self.blockchain = candidate_chain` and then iterates
the freshly assigned chain. -/
def Blockchain.resolve_conflicts (self : Blockchain) (candidate_chain : List Block) :
    Option (Blockchain × Bool) :=
  match self.blockchain, candidate_chain with
  | [], _ => none
  | _, [] => none
  | s0 :: _, c0 :: _ =>
    if s0.hash ≠ c0.hash then some (self, false)
    else if self.blockchain.length < candidate_chain.length then
      some (⟨candidate_chain,
        self.tx_pool ++ suffixTxs candidate_chain (forkPoint self.blockchain candidate_chain)⟩,
        true)
    else if self.blockchain.length = candidate_chain.length then
      if chainWork self.blockchain > chainWork candidate_chain then
        some ({ self with tx_pool :=
          self.tx_pool ++ suffixTxs candidate_chain (forkPoint self.blockchain candidate_chain) },
          false)
      else if chainWork self.blockchain < chainWork candidate_chain then
        some (⟨candidate_chain,
          self.tx_pool ++ suffixTxs candidate_chain (forkPoint self.blockchain candidate_chain)⟩,
          true)
      else
        some ({ self with tx_pool :=
          self.tx_pool ++ suffixTxs candidate_chain (forkPoint self.blockchain candidate_chain) },
          false)
    else
      some ({ self with tx_pool :=
        self.tx_pool ++ suffixTxs candidate_chain (forkPoint self.blockchain candidate_chain) },
        false)

/-- Method `Blockchain::reward_algorithm`, `floor(18 / log10(index + 1))`
computed in `f64` and converted to an integral `Decimal`.  For every base
`n = index + 1 ≥ 2`, `floor(18 / log10 n)` is the largest `k` with
`n^k ≤ 10^18`, i.e. `Nat.log n (10^18)`; the bridge to the real-number floor
is proved in `rewardNat_eq_floor` below.  (`index = 0` divides by zero in the
source and panics in `Decimal::from_f64(inf).unwrap()`; no embedded operation
calls it with 0.) -/
def rewardNat (index : Nat) : Nat :=
  Nat.log (index + 1) (10 ^ 18)

/-- The `Decimal` the source returns for the reward. -/
def reward_algorithm (index : Nat) : Dec :=
  ⟨rewardNat index, 0⟩

/-- The outcome of the `for input in transaction.get_inputs()` loop of
`verify_regular_transaction`. -/
inductive InputsRes where
  | crashed
  | invalid
  | ok (input_fee_sum : Dec)
deriving DecidableEq

/-- The inputs loop of `verify_regular_transaction`: look up the referenced
block, transaction and output (missing ⇒ invalid), accumulate the referenced
amounts, and check the scripts.  The `verify_scripts` call transposes the
arguments exactly as the call site does: the *locking* script is passed in
the `unlocking_script` position and vice versa. -/
def inputsLoop (C : Secp) (chain : List Block) : List Input → Dec → InputsRes
  | [], acc => .ok acc
  | inp :: rest, acc =>
    match chain.get? inp.prev_block_index with
    | none => .invalid
    | some block =>
      match block.get_tx_by_id inp.prev_transaction_hash with
      | none => .invalid
      | some prev_tx =>
        match prev_tx.get_output_by_index inp.prev_output_index with
        | none => .invalid
        | some prev_output =>
          match Transaction.verify_scripts C prev_tx
              prev_output.locking_script inp.unlock_script with
          | none => .crashed
          | some false => .invalid
          | some true => inputsLoop C chain rest (acc.add prev_output.amount)

/-- The outputs loop of `verify_regular_transaction`: any negative amount is
invalid (`none` here means `return false`, not a panic), otherwise the
amounts are subtracted from the accumulated input sum. -/
def outputsLoop : List Output → Dec → Option Dec
  | [], acc => some acc
  | o :: rest, acc =>
    if Dec.lt o.amount ⟨0, 0⟩ then none else outputsLoop rest (acc.sub o.amount)

/-- Method `Blockchain::verify_regular_transaction`.  `none` models a panic
(raised inside the transposed `verify_scripts` call). -/
def Blockchain.verify_regular_transaction (C : Secp) (self : Blockchain)
    (transaction : Transaction) : Option Bool :=
  match inputsLoop C self.blockchain transaction.inputs dec00 with
  | .crashed => none
  | .invalid => some false
  | .ok input_fee_sum =>
    if transaction.transaction_id ≠ transaction.sha256 then some false
    else
      match outputsLoop transaction.outputs input_fee_sum with
      | none => some false
      | some remaining =>
        if ¬ Dec.eqNum transaction.transaction_fee remaining then some false
        else some true

/-- Function `Blockchain::create_coinbase_transaction`: one output per
`(address, amount)` receiver, then `update_digest`. -/
def Blockchain.create_coinbase_transaction (receivers : List (List Nat × Dec)) :
    Transaction :=
  Transaction.update_digest
    ⟨[], receivers.map (fun r => Output.mkNew r.2 r.1), zero32, dec00, none⟩

/-- Method `Blockchain::generate_new_block`.  `none` models the panics (empty
chain, a negative receiver amount, receiver sum above the reward) and a
mining loop that has not terminated within `fuel` attempts. -/
def Blockchain.generate_new_block (self : Blockchain) (receivers : List (List Nat × Dec))
    (protocol_version : List Nat) (time_millis : Nat) (difficulty : Nat)
    (unpacked_transactions : List Transaction) (fuel : Nat) : Option Block :=
  match self.get_last_block with
  | none => none
  | some prev_block =>
    if receivers.any (fun r => decide (Dec.lt r.2 ⟨0, 0⟩)) then none
    else if Dec.lt (reward_algorithm (prev_block.index + 1))
        (receivers.foldl (fun s r => s.add r.2) dec00) then none
    else
      let block : Block :=
        ⟨protocol_version, prev_block.index + 1, time_millis, prev_block.hash,
          zero32, zero32, difficulty, 0,
          Blockchain.create_coinbase_transaction receivers :: unpacked_transactions⟩
      Block.update_hash_and_nonce { block with merkle_root := block.calc_merkle_root } fuel

/-! ## Spec-side Merkle description (§4.2 of the spec, for the refinement
claim): hash adjacent pairs, carry a lone trailing element up unchanged,
repeat until a single hash remains. -/

/-- One spec-side level: adjacent pairs are hashed, a lone trailing element
is carried up unchanged (never duplicated). -/
def merklePair : List (List Nat) → List (List Nat)
  | x :: y :: rest => sha256Bytes (x ++ y) :: merklePair rest
  | l => l

/-- Spec-side reduction to a single root (fuel-driven; the list length always
suffices as fuel). -/
def merkleRecAux : Nat → List (List Nat) → List Nat
  | _, [] => zero32
  | _, [h] => h
  | 0, _ :: _ :: _ => zero32
  | fuel + 1, hs => merkleRecAux fuel (merklePair hs)

/-- The spec-side Merkle root of a list of leaves. -/
def merkleSpecRoot (leaves : List (List Nat)) : List Nat :=
  merkleRecAux leaves.length leaves

/-! ## Concrete witness data -/

/-- A minimal transaction: no inputs or outputs, zero id, fee `dec!(0.0)`. -/
def txC2 : Transaction := ⟨[], [], zero32, dec00, none⟩

/-- A 32-byte locking script (a public-key hash slot). -/
def lock32 : List Nat := List.replicate 32 7

/-- A confirmed transaction carrying one ordinary P2PKH-style output. -/
def prevTxC3 : Transaction :=
  ⟨[], [Output.mkNew dec00 lock32], List.replicate 32 1, dec00, none⟩

/-- A one-block chain containing `prevTxC3`. -/
def chainC3 : Blockchain :=
  ⟨[⟨[], 0, 0, zero32, zero32, zero32, 0, 0, [prevTxC3]⟩], []⟩

/-- A regular transaction spending `prevTxC3`'s output with a well-formed
97-byte unlock script (64-byte signature ‖ 33-byte public key). -/
def txC3 : Transaction :=
  ⟨[Input.mkNew (List.replicate 32 1) 0 0 (List.replicate 97 2)], [], zero32, dec00, none⟩

/-- A coinbase-shaped transaction tagged by its `additional_data`. -/
def cbTx (tag : Nat) : Transaction := ⟨[], [], zero32, dec00, some [tag]⟩

/-- A genesis block shared by the fork-test chains. -/
def gB : Block := ⟨[], 0, 0, zero32, zero32, zero32, 0, 0, []⟩

/-- Successor block of the incumbent chain; its second transaction is the
non-coinbase `cbTx 1`. -/
def bC1 : Block := ⟨[], 1, 0, zero32, List.replicate 32 1, zero32, 0, 0, [cbTx 0, cbTx 2]⟩

/-- First successor block of the candidate chain, carrying `cbTx 3`. -/
def dB1 : Block := ⟨[], 1, 0, zero32, List.replicate 32 2, zero32, 0, 0, [cbTx 0, cbTx 3]⟩

/-- Second successor block of the candidate chain (coinbase only). -/
def dB2 : Block := ⟨[], 2, 0, zero32, List.replicate 32 3, zero32, 0, 0, [cbTx 0]⟩

/-- A block whose compact difficulty `0x220000FF` expands to the largest
byte in the top position, so that mining succeeds at once. -/
def bW : Block := ⟨[], 0, 0, zero32, zero32, zero32, 0x220000FF, 0, []⟩

/-- The doubled SHA-256 of `bW`'s header at nonce 0. -/
def hashW : List Nat :=
  [0x11, 0x87, 0x4a, 0xc5, 0x85, 0x97, 0x6a, 0xc2, 0x5c, 0x57, 0x53, 0xee,
   0xac, 0xb3, 0xaf, 0x7e, 0x61, 0x7f, 0x14, 0x5f, 0xbc, 0x47, 0x24, 0xbc,
   0x56, 0xa4, 0x57, 0x7f, 0x6e, 0x6c, 0xc9, 0xd5]

/-- A block with the spec's example difficulty `0x1E123456`. -/
def blockDiff1E : Block := ⟨[], 0, 0, zero32, zero32, zero32, 0x1E123456, 0, []⟩

/-! ## Sanity checks of the SHA-256 embedding (FIPS 180-4 test vectors) -/

example : sha256Bytes [] =
    [0xe3, 0xb0, 0xc4, 0x42, 0x98, 0xfc, 0x1c, 0x14, 0x9a, 0xfb, 0xf4, 0xc8,
     0x99, 0x6f, 0xb9, 0x24, 0x27, 0xae, 0x41, 0xe4, 0x64, 0x9b, 0x93, 0x4c,
     0xa4, 0x95, 0x99, 0x1b, 0x78, 0x52, 0xb8, 0x55] := by decide

example : sha256Bytes [0x61, 0x62, 0x63] =
    [0xba, 0x78, 0x16, 0xbf, 0x8f, 0x01, 0xcf, 0xea, 0x41, 0x41, 0x40, 0xde,
     0x5d, 0xae, 0x22, 0x23, 0xb0, 0x03, 0x61, 0xa3, 0x96, 0x17, 0x7a, 0x9c,
     0xb4, 0x10, 0xff, 0x61, 0xf2, 0x00, 0x15, 0xad] := by decide

/-! ## Claim C1 — script verification and the verify predicates never panic -/

/-- C1: the claim says `Transaction::verify_scripts` returns `false` on every
malformed unlock script and never raises.  In the source, an unlocking-script
argument shorter than 64 bytes makes `split_at(64)` panic (here: the empty
script), so verification does not return a boolean at all. -/
theorem C1_verify_scripts_crashes_on_short_script (C : Secp) (prev : Transaction)
    (locking : List Nat) : Transaction.verify_scripts C prev [] locking = none := rfl

/-! ## Claim C2 — digest idempotence after `update_digest` -/

/-- C2: the claim says a finalized transaction satisfies
`transaction_id == SHA256(canonical_encoding)`.  In the source,
`update_digest` stores the hash of the encoding with the *zero* id, and the
canonical encoding includes the `transaction_id` field as stored — so
re-hashing the finalized transaction gives a different digest.  At the
concrete minimal transaction `txC2` the two differ. -/
theorem C2_digest_not_stable :
    txC2.update_digest.transaction_id = Transaction.sha256 txC2 ∧
      txC2.update_digest.transaction_id ≠ Transaction.sha256 txC2.update_digest :=
  ⟨rfl, by decide⟩

/-! ## Claim C3 — characterization of regular-transaction validity -/

/-- C3: the claim says a regular transaction is judged by a boolean
conjunction that includes P2PKH script verification of each input's
`unlock_script` against the referenced `locking_script`.  In the source the
call transposes the two script arguments, so the 32-byte locking script is
`split_at(64)` and `verify_regular_transaction` panics on every input whose
referenced output has an ordinary 32-byte locking script — here a fully
well-formed spend with a 97-byte unlock script. -/
theorem C3_regular_verification_crashes (C : Secp) :
    Blockchain.verify_regular_transaction C chainC3 txC3 = none := rfl

/-! ## Claim C4 — mempool replay of the abandoned suffix -/

/-- C4: the claim says that when the candidate chain is adopted, the
non-coinbase transactions of the *abandoned* suffix of the original chain is
re-added to the mempool.  In the source the chain is replaced *before* the
replay loop runs, so the loop walks the adopted candidate chain instead: at
this concrete fork the pool ends up holding the candidate's `cbTx 3` while
the abandoned block's `cbTx 2` is lost. -/
theorem C4_abandoned_txs_lost :
    Blockchain.resolve_conflicts ⟨[gB, bC1], []⟩ [gB, dB1, dB2] =
        some (⟨[gB, dB1, dB2], [cbTx 3]⟩, true) ∧
      cbTx 2 ∉ [cbTx 3] := by decide

/-! ## Claim C10 — `resolve_conflicts` panics on an empty candidate slice -/

/-- C10: with a non-empty own chain, calling `resolve_conflicts` with an
empty candidate slice reaches `candidate_chain[0]` in the genesis comparison
and panics (modelled as `none`) before any chain or pool change, rather than
returning `false`. -/
theorem C10_empty_candidate_panics (self : Blockchain) (h : self.blockchain ≠ []) :
    Blockchain.resolve_conflicts self [] = none := by
  obtain ⟨bc, pool⟩ := self
  cases bc with
  | nil => exact absurd rfl h
  | cons b rest => rfl

/-- Witness for C10 at a concrete one-block chain. -/
theorem C10_empty_candidate_panics_witness :
    Blockchain.resolve_conflicts ⟨[gB], []⟩ [] = none :=
  C10_empty_candidate_panics ⟨[gB], []⟩ (by decide)

/-! ## Claim C5 — fork choice: length first, then aggregate difficulty -/

/-- C5: for chains sharing the genesis hash, `resolve_conflicts` replaces the
incumbent chain exactly when the candidate is strictly longer, or of equal
length and of strictly larger summed raw difficulty (`u32` sum), and the
returned boolean reports exactly whether the chain was replaced; otherwise
the incumbent chain stays. -/
theorem C5_fork_choice (self : Blockchain) (candidate : List Block) (s0 c0 : Block)
    (hs : self.blockchain.head? = some s0) (hc : candidate.head? = some c0)
    (hg : s0.hash = c0.hash) :
    ∃ (st : Blockchain) (replaced : Bool),
      self.resolve_conflicts candidate = some (st, replaced) ∧
      (replaced = true ↔
        (self.blockchain.length < candidate.length ∨
          (self.blockchain.length = candidate.length ∧
            chainWork self.blockchain < chainWork candidate))) ∧
      st.blockchain = (if replaced then candidate else self.blockchain) ∧
      st.tx_pool = self.tx_pool ++ suffixTxs candidate (forkPoint self.blockchain candidate) := by
  obtain ⟨bc, pool⟩ := self
  cases bc with
  | nil => simp at hs
  | cons b rest =>
    cases candidate with
    | nil => simp at hc
    | cons c crest =>
      simp only [List.head?_cons, Option.some.injEq] at hs hc
      subst hs; subst hc
      simp only [Blockchain.resolve_conflicts]
      rw [if_neg (show ¬(b.hash ≠ c.hash) from fun hne => hne hg)]
      by_cases h1 : (b :: rest).length < (c :: crest).length
      · rw [if_pos h1]
        refine ⟨_, true, rfl, ?_, rfl, rfl⟩
        simp only [true_iff]
        exact Or.inl h1
      · rw [if_neg h1]
        by_cases h2 : (b :: rest).length = (c :: crest).length
        · rw [if_pos h2]
          rcases Nat.lt_trichotomy (chainWork (c :: crest)) (chainWork (b :: rest)) with
            h3 | h3 | h3
          · rw [if_pos h3]
            refine ⟨_, false, rfl, ?_, rfl, rfl⟩
            simp only [Bool.false_eq_true, false_iff]
            omega
          · rw [if_neg (by omega), if_neg (by omega)]
            refine ⟨_, false, rfl, ?_, rfl, rfl⟩
            simp only [Bool.false_eq_true, false_iff]
            omega
          · rw [if_neg (by omega), if_pos h3]
            refine ⟨_, true, rfl, ?_, rfl, rfl⟩
            simp only [true_iff]
            exact Or.inr ⟨h2, h3⟩
        · rw [if_neg h2]
          refine ⟨_, false, rfl, ?_, rfl, rfl⟩
          simp only [Bool.false_eq_true, false_iff]
          omega

/-- Witness for C5: equal one-block chains with equal work keep the incumbent. -/
theorem C5_fork_choice_witness :
    Blockchain.resolve_conflicts ⟨[gB], []⟩ [gB] ≠ none := by
  obtain ⟨st, replaced, heq, -, -, -⟩ :=
    C5_fork_choice ⟨[gB], []⟩ [gB] gB gB rfl rfl rfl
  simp [heq]

/-! ## Claim C6 — nonce search and proof-of-work soundness -/

/-- Soundness of the nonce search: a successful `mineAux` run returns the
first nonce at or after the start whose doubled SHA-256 meets the target,
together with that hash. -/
theorem mineAux_sound (b : Block) (target : List Nat) :
    ∀ (fuel : Nat) (n0 n : Int) (h : List Nat),
      mineAux b target fuel n0 = some (n, h) →
      h = Block.sha256d { b with nonce := n } ∧ beNat h ≤ beNat target ∧ n0 ≤ n ∧
        ∀ m : Int, n0 ≤ m → m < n →
          beNat target < beNat (Block.sha256d { b with nonce := m }) := by
  intro fuel
  induction fuel with
  | zero => intro n0 n h hrun; simp [mineAux] at hrun
  | succ fuel ih =>
    intro n0 n h hrun
    rw [mineAux] at hrun
    by_cases hle :
        beNat (Block.sha256d { b with nonce := n0 }) ≤ beNat target
    · rw [if_pos hle] at hrun
      simp only [Option.some.injEq, Prod.mk.injEq] at hrun
      obtain ⟨hn, hh⟩ := hrun
      subst hn
      exact ⟨hh.symm, hh ▸ hle, le_refl n0, fun m hm1 hm2 => absurd hm1 (by omega)⟩
    · rw [if_neg hle] at hrun
      obtain ⟨hh, hle', hge, hmin⟩ := ih (n0 + 1) n h hrun
      refine ⟨hh, hle', by omega, fun m hm1 hm2 => ?_⟩
      rcases eq_or_lt_of_le hm1 with heq | hlt
      · subst heq; omega
      · exact hmin m (by omega) hm2

/-- The header bytes do not involve the stored `hash` field. -/
theorem headerEncode_update (b : Block) (n : Int) (x : List Nat) :
    headerEncode { b with nonce := n, hash := x } = headerEncode { b with nonce := n } := rfl

/-- The doubled header hash depends only on the header bytes. -/
theorem sha256d_congr {b1 b2 : Block} (h : headerEncode b1 = headerEncode b2) :
    Block.sha256d b1 = Block.sha256d b2 := by
  unfold Block.sha256d Block.sha256
  rw [h]

/-- The expanded target depends only on the `difficulty` field. -/
theorem target_threshold_congr {b1 b2 : Block} (h : b1.difficulty = b2.difficulty) :
    Block.target_threshold b1 = Block.target_threshold b2 := by
  unfold Block.target_threshold
  rw [h]

/-- Soundness of `Block::update_hash_and_nonce`: when it terminates, the
committed hash is the doubled SHA-256 of the committed header, it meets the
target, the committed nonce is the first success at or after the stored
nonce, and no other field changes. -/
theorem update_hash_and_nonce_sound (b : Block) (fuel : Nat) (b' : Block)
    (hb : b.update_hash_and_nonce fuel = some b') :
    b'.hash = b'.sha256d ∧
      beNat b'.hash ≤ beNat b'.target_threshold ∧
      b.nonce ≤ b'.nonce ∧
      (∀ m : Int, b.nonce ≤ m → m < b'.nonce →
        beNat b.target_threshold < beNat (Block.sha256d { b with nonce := m })) ∧
      b' = { b with nonce := b'.nonce, hash := b'.hash } := by
  unfold Block.update_hash_and_nonce at hb
  obtain ⟨⟨n, h⟩, hrun, hmap⟩ := Option.map_eq_some'.mp hb
  obtain ⟨hh, hle, hge, hmin⟩ := mineAux_sound b b.target_threshold fuel b.nonce n h hrun
  have hb' : b' = { b with nonce := n, hash := h } := hmap.symm
  have e1 : Block.sha256d { b with nonce := n, hash := h } =
      Block.sha256d { b with nonce := n } :=
    sha256d_congr (headerEncode_update b n h)
  have e2 : Block.target_threshold { b with nonce := n, hash := h } =
      Block.target_threshold b :=
    target_threshold_congr rfl
  subst hb'
  refine ⟨?_, ?_, hge, hmin, rfl⟩
  · show h = Block.sha256d { b with nonce := n, hash := h }
    rw [e1]
    exact hh
  · show beNat h ≤ beNat (Block.target_threshold { b with nonce := n, hash := h })
    rw [e2]
    exact hle

/-- C6: the nonce search of `update_hash_and_nonce` starts at the block's
stored nonce, fails only below the committed nonce (i.e. increments one by
one to the first success), and commits that nonce with its doubled-SHA-256
header hash, which meets the expanded target; consequently any block
returned by `generate_new_block` satisfies
`hash = SHA256(SHA256(header))` and `hash ≤ target_threshold(difficulty)`. -/
theorem C6_mining_pow :
    (∀ (b : Block) (fuel : Nat) (b' : Block),
      b.update_hash_and_nonce fuel = some b' →
      b'.hash = b'.sha256d ∧
        beNat b'.hash ≤ beNat b'.target_threshold ∧
        b.nonce ≤ b'.nonce ∧
        (∀ m : Int, b.nonce ≤ m → m < b'.nonce →
          beNat b.target_threshold < beNat (Block.sha256d { b with nonce := m })) ∧
        b' = { b with nonce := b'.nonce, hash := b'.hash }) ∧
    (∀ (self : Blockchain) (receivers : List (List Nat × Dec))
      (ver : List Nat) (tm diff : Nat) (txs : List Transaction) (fuel : Nat) (blk : Block),
      self.generate_new_block receivers ver tm diff txs fuel = some blk →
      blk.hash = blk.sha256d ∧ beNat blk.hash ≤ beNat blk.target_threshold) := by
  refine ⟨update_hash_and_nonce_sound, ?_⟩
  intro self receivers ver tm diff txs fuel blk hgen
  unfold Blockchain.generate_new_block at hgen
  split at hgen
  · cases hgen
  · split at hgen
    · cases hgen
    · split at hgen
      · cases hgen
      · obtain ⟨h1, h2, -, -, -⟩ := update_hash_and_nonce_sound _ fuel blk hgen
        exact ⟨h1, h2⟩

/-- Witness for C6: mining `bW` (target `0xFF` followed by 31 zero bytes)
succeeds at the starting nonce 0 and commits `hashW`, which meets the
target. -/
theorem C6_mining_pow_witness :
    Block.update_hash_and_nonce bW 1 = some { bW with hash := hashW } ∧
      beNat ({ bW with hash := hashW } : Block).hash ≤
        beNat ({ bW with hash := hashW } : Block).target_threshold := by
  refine ⟨by decide, ?_⟩
  exact (C6_mining_pow.1 bW 1 { bW with hash := hashW } (by decide)).2.1

/-! ## Claim C8 — Merkle root computation -/

/-- Chunking the empty list gives no chunks, for any fuel. -/
theorem chunks2_nil (fuel : Nat) : chunks2 fuel [] = [] := by
  cases fuel <;> rfl

/-- With enough fuel, mapping the source's chunk translation over
`chunks(2)` is exactly the spec-side pairing step. -/
theorem chunks2_map_eq_merklePair :
    ∀ (fuel : Nat) (hs : List (List Nat)), hs.length ≤ fuel →
      (chunks2 fuel hs).map merkleChunkMap = merklePair hs := by
  intro fuel
  induction fuel with
  | zero =>
    intro hs hlen
    rw [List.eq_nil_of_length_eq_zero (Nat.le_zero.mp hlen)]
    rfl
  | succ fuel ih =>
    intro hs hlen
    match hs with
    | [] => rfl
    | [x] =>
      simp only [chunks2, List.take, List.drop, chunks2_nil]
      rfl
    | x :: y :: rest =>
      have h1 : chunks2 (fuel + 1) (x :: y :: rest) = [x, y] :: chunks2 fuel rest := by
        simp [chunks2]
      have h2 : merklePair (x :: y :: rest) = sha256Bytes (x ++ y) :: merklePair rest := by
        simp [merklePair]
      rw [h1, h2, List.map_cons, ih rest (by simp at hlen; omega)]
      rfl

/-- One source loop pass equals one spec-side pairing step. -/
theorem merkleLevel_eq_merklePair (hs : List (List Nat)) :
    merkleLevel hs = merklePair hs :=
  chunks2_map_eq_merklePair hs.length hs (le_refl _)

/-- Each pairing step maps a level of `n` hashes to `⌈n / 2⌉` hashes. -/
theorem merklePair_length : ∀ hs : List (List Nat),
    (merklePair hs).length = (hs.length + 1) / 2
  | [] => by simp [merklePair]
  | [x] => by simp [merklePair]
  | x :: y :: rest => by
    have h2 : merklePair (x :: y :: rest) = sha256Bytes (x ++ y) :: merklePair rest := by
      simp [merklePair]
    rw [h2]
    simp only [List.length_cons, merklePair_length rest]
    omega

/-- The source's fuelled while-loop computes the spec-side recursive root on
every non-empty level, for any sufficient fuel on both sides. -/
theorem merkleLoop_eq_spec :
    ∀ (n : Nat) (hs : List (List Nat)) (fuel g : Nat),
      hs ≠ [] → hs.length ≤ n → hs.length ≤ fuel + 1 → hs.length ≤ g + 1 →
      (merkleLoop fuel hs).headD zero32 = merkleRecAux g hs := by
  intro n
  induction n with
  | zero =>
    intro hs fuel g hne hlen _ _
    exact absurd (List.eq_nil_of_length_eq_zero (Nat.le_zero.mp hlen)) hne
  | succ n ih =>
    intro hs fuel g hne hlen hf hg
    match hs with
    | [x] =>
      have hx : ∀ f : Nat, merkleLoop f [x] = [x] := by
        intro f; cases f <;> simp [merkleLoop]
      rw [hx fuel]
      cases g <;> rfl
    | x :: y :: rest =>
      have hlen2 : (x :: y :: rest).length = rest.length + 2 := by simp
      obtain ⟨f', rfl⟩ : ∃ f', fuel = f' + 1 :=
        ⟨fuel - 1, by simp at hf; omega⟩
      obtain ⟨g', rfl⟩ : ∃ g', g = g' + 1 :=
        ⟨g - 1, by simp at hg; omega⟩
      rw [merkleLoop, if_pos (by simp)]
      have hrec : merkleRecAux (g' + 1) (x :: y :: rest) =
          merkleRecAux g' (merklePair (x :: y :: rest)) := by
        simp [merkleRecAux]
      rw [hrec, merkleLevel_eq_merklePair]
      have hlenp : (merklePair (x :: y :: rest)).length = (rest.length + 3) / 2 := by
        rw [merklePair_length]; simp
      have hne' : merklePair (x :: y :: rest) ≠ [] := by
        simp [merklePair]
      refine ih (merklePair (x :: y :: rest)) f' g' hne' ?_ ?_ ?_ <;>
        (rw [hlenp]; simp at hlen hf hg; omega)

/-- C8: `calc_merkle_root` returns the 32-byte zero for an empty transaction
list, and otherwise reduces the single-SHA-256 transaction leaves by hashing
adjacent pairs (`SHA256(left ‖ right)`) and carrying a lone trailing element
up unchanged (never duplicating it), until a single root remains — the
spec-side recursion `merkleSpecRoot`. -/
theorem C8_merkle_semantics (b : Block) :
    b.calc_merkle_root =
      if b.data = [] then zero32
      else merkleSpecRoot (b.data.map Transaction.sha256) := by
  unfold Block.calc_merkle_root merkleSpecRoot
  by_cases hd : b.data = []
  · rw [if_pos hd, if_pos hd]
  · rw [if_neg hd, if_neg hd]
    refine merkleLoop_eq_spec (b.data.map Transaction.sha256).length _ _ _
      (by simpa using hd) (le_refl _) (by omega) (by omega)

/-! ## Claim C7 — compact-difficulty target expansion -/

/-- Appending a byte multiplies the big-endian value by 256 and adds it. -/
theorem beNat_snoc (l : List Nat) (x : Nat) : beNat (l ++ [x]) = beNat l * 256 + x := by
  simp [beNat, List.foldl_append]

/-- The big-endian value of a byte table is a weighted sum of its entries. -/
theorem beNat_range_map (f : Nat → Nat) (n : Nat) :
    beNat ((List.range n).map f) = ∑ i ∈ Finset.range n, f i * 256 ^ (n - 1 - i) := by
  induction n with
  | zero => simp [beNat]
  | succ n ih =>
    rw [List.range_succ, List.map_append, List.map_singleton, beNat_snoc, ih,
      Finset.sum_range_succ]
    simp only [Nat.add_sub_cancel, Nat.sub_self, pow_zero, mul_one]
    rw [Finset.sum_mul]
    congr 1
    refine Finset.sum_congr rfl fun i hi => ?_
    have hi' := Finset.mem_range.mp hi
    rw [mul_assoc, ← pow_succ, show n - 1 - i + 1 = n - i from by omega]

/-- The value of the expanded target: the mantissa `b1·2^16 + b2·2^8 + b3`
(with a byte clipped to zero whenever its position falls off the 32-byte
array) scaled by `2^(8·(b0−3))`, written with a floor division so that it
also covers `b0 < 3`. -/
theorem target_threshold_formula (b : Block) :
    beNat b.target_threshold =
      ((if b.difficulty / 2 ^ 24 % 256 ≤ 32 then b.difficulty / 2 ^ 16 % 256 * 2 ^ 16 else 0) +
        (if b.difficulty / 2 ^ 24 % 256 ≤ 33 then b.difficulty / 2 ^ 8 % 256 * 2 ^ 8 else 0) +
        (if b.difficulty / 2 ^ 24 % 256 ≤ 34 then b.difficulty % 256 else 0)) *
        2 ^ (8 * (b.difficulty / 2 ^ 24 % 256)) / 2 ^ 24 := by
  simp only [Block.target_threshold]
  set b0 := b.difficulty / 2 ^ 24 % 256 with hb0d
  set b1 := b.difficulty / 2 ^ 16 % 256 with hb1d
  set b2 := b.difficulty / 2 ^ 8 % 256 with hb2d
  set b3 := b.difficulty % 256 with hb3d
  have hB1 : b1 < 256 := by rw [hb1d]; exact Nat.mod_lt _ (by norm_num)
  have hB2 : b2 < 256 := by rw [hb2d]; exact Nat.mod_lt _ (by norm_num)
  have hB3 : b3 < 256 := by rw [hb3d]; exact Nat.mod_lt _ (by norm_num)
  clear_value b0 b1 b2 b3
  rw [beNat_range_map]
  rcases le_or_lt b0 34 with hb0le | hb0gt
  · interval_cases b0 <;> (simp only [Finset.sum_range_succ]; norm_num; try omega)
  · refine Eq.trans (Finset.sum_eq_zero fun i hi => ?_) ?_
    · have hi' := Finset.mem_range.mp hi
      split_ifs with h1 h2 h3
      · exfalso; omega
      · exfalso; omega
      · exfalso; omega
      · simp
    · rw [if_neg (by omega), if_neg (by omega), if_neg (by omega)]
      simp

/-- C7: the expanded target is the 32-byte big-endian representation of
`(b1·2^16 + b2·2^8 + b3) · 2^(8·(b0−3))` with out-of-range mantissa bytes
clipped to zero (floor division covers the sub-unit exponents `b0 < 3`);
in particular difficulty `0x1E123456` expands to `0x0000123456` followed by
27 zero bytes. -/
theorem C7_target_expansion :
    (∀ b : Block,
      beNat b.target_threshold =
        ((if b.difficulty / 2 ^ 24 % 256 ≤ 32 then b.difficulty / 2 ^ 16 % 256 * 2 ^ 16 else 0) +
          (if b.difficulty / 2 ^ 24 % 256 ≤ 33 then b.difficulty / 2 ^ 8 % 256 * 2 ^ 8 else 0) +
          (if b.difficulty / 2 ^ 24 % 256 ≤ 34 then b.difficulty % 256 else 0)) *
          2 ^ (8 * (b.difficulty / 2 ^ 24 % 256)) / 2 ^ 24) ∧
    blockDiff1E.target_threshold =
      [0x00, 0x00, 0x12, 0x34, 0x56] ++ List.replicate 27 0 :=
  ⟨target_threshold_formula, by decide⟩

/-! ## Claim C9 — the reward curve -/

/-- Bridge between the integer characterization of the reward and the real
floor the source computes: for a base `n ≥ 2`, the largest `k` with
`n ^ k ≤ 10 ^ 18` is `⌊18 / log10 n⌋`. -/
theorem natLog_floor_bridge (n : Nat) (hn : 2 ≤ n) :
    (Nat.log n (10 ^ 18) : ℤ) = ⌊(18 : ℝ) / Real.logb 10 (n : ℝ)⌋ := by
  have hnR : (1 : ℝ) < (n : ℝ) := by exact_mod_cast (by omega : 1 < n)
  have hnpos : (0 : ℝ) < (n : ℝ) := by linarith
  have hL : 0 < Real.logb 10 (n : ℝ) := Real.logb_pos (by norm_num) hnR
  have h18 : Real.logb 10 ((10 : ℝ) ^ (18 : ℕ)) = 18 := by
    rw [Real.logb_pow, Real.logb_self_eq_one (by norm_num)]
    norm_num
  have hpow1 : ((n : ℝ)) ^ Nat.log n (10 ^ 18) ≤ (10 : ℝ) ^ (18 : ℕ) := by
    exact_mod_cast Nat.pow_log_le_self n (by positivity)
  have hpow2 : (10 : ℝ) ^ (18 : ℕ) < (n : ℝ) ^ (Nat.log n (10 ^ 18) + 1) := by
    exact_mod_cast Nat.lt_pow_succ_log_self (by omega : 1 < n) (10 ^ 18)
  have hub : (Nat.log n (10 ^ 18) : ℝ) * Real.logb 10 (n : ℝ) ≤ 18 := by
    have h2 := Real.logb_le_logb_of_le (by norm_num : (1 : ℝ) < 10)
      (pow_pos hnpos _) hpow1
    rwa [Real.logb_pow, h18] at h2
  have hlb : 18 < ((Nat.log n (10 ^ 18) : ℝ) + 1) * Real.logb 10 (n : ℝ) := by
    have h2 := Real.logb_lt_logb (by norm_num : (1 : ℝ) < 10) (by positivity) hpow2
    rw [h18, Real.logb_pow, Nat.cast_add, Nat.cast_one] at h2
    exact h2
  symm
  rw [Int.floor_eq_iff]
  refine ⟨?_, ?_⟩
  · rw [Int.cast_natCast, le_div_iff₀ hL]
    exact hub
  · rw [div_lt_iff₀ hL, Int.cast_natCast]
    exact hlb

/-- C9 (amended values): the reward is `⌊18 / log10(h + 1)⌋`, it is monotone
non-increasing from height 1 on, it is eventually zero, and its first values
are `reward(1) = 59`, `reward(9) = 18`, `reward(99) = 9`. -/
theorem C9_reward_curve :
    (∀ h : Nat, 1 ≤ h →
      (rewardNat h : ℤ) = ⌊(18 : ℝ) / Real.logb 10 ((h : ℝ) + 1)⌋) ∧
    (∀ h k : Nat, 1 ≤ h → h ≤ k → rewardNat k ≤ rewardNat h) ∧
    (∀ h : Nat, 10 ^ 18 ≤ h → rewardNat h = 0) ∧
    rewardNat 1 = 59 ∧ rewardNat 9 = 18 ∧ rewardNat 99 = 9 := by
  refine ⟨?_, ?_, ?_, ?_, ?_, ?_⟩
  · intro h hh
    have hb := natLog_floor_bridge (h + 1) (by omega)
    unfold rewardNat
    rw [hb]
    congr 2
    push_cast
    ring
  · intro h k hh hk
    exact Nat.log_anti_left (by omega) (by omega)
  · intro h hh
    unfold rewardNat
    exact Nat.log_eq_zero_iff.mpr (Or.inl (by omega))
  · exact Nat.log_eq_of_pow_le_of_lt_pow (by norm_num) (by norm_num)
  · exact Nat.log_eq_of_pow_le_of_lt_pow (by norm_num) (by norm_num)
  · exact Nat.log_eq_of_pow_le_of_lt_pow (by norm_num) (by norm_num)

/-- Witness for C9: monotonicity applied at heights 1 and 2. -/
theorem C9_reward_curve_witness : rewardNat 2 ≤ rewardNat 1 :=
  C9_reward_curve.2.1 1 2 (by norm_num) (by norm_num)

/-- Counterexample for C9 as frozen: the reward at height 1 is
`⌊18 / log10 2⌋ = 59`, not 27. -/
theorem C9_reward_one_not_27 :
    rewardNat 1 = 59 ∧ (rewardNat 1 : ℤ) = ⌊(18 : ℝ) / Real.logb 10 2⌋ ∧
      rewardNat 1 ≠ 27 := by
  have h59 : rewardNat 1 = 59 :=
    Nat.log_eq_of_pow_le_of_lt_pow (by norm_num) (by norm_num)
  refine ⟨h59, ?_, by omega⟩
  have hb := natLog_floor_bridge 2 (by norm_num)
  unfold rewardNat
  rw [show ((1 : ℕ) + 1) = 2 from rfl, hb]
  norm_num
